import Mathlib

/-!
Shallow embedding of the CSV-to-record normalization pipeline of the
materials-archive site (sources: `src/components/archive.tsx`,
`src/app/people/page.tsx`, `src/app/projects/page.tsx`,
`src/app/publications/page.tsx`, `src/unnamed/part_001` — the news page).

JavaScript strings are modelled by Lean `String`, with the JavaScript
string primitives used by the source re-implemented over `String.data`
(`List Char`) so that all definitions are executable and
induction-friendly.  JavaScript string truthiness (`if (s)`) is modelled
as `s ≠ ""`.
-/

/-- The ASCII fragment of the whitespace class recognized by JavaScript
`String.prototype.trim` and the regex `\s`.  (The full Unicode class also
contains exotic space code points; the feed-processing code only ever
meets ASCII whitespace.) -/
def isJsSpace (c : Char) : Bool :=
  c == ' ' || c == '\t' || c == '\n' || c == '\r' || c == '\x0b' || c == '\x0c'

/-- Drop leading whitespace characters. -/
def ltrimChars (l : List Char) : List Char := l.dropWhile isJsSpace

/-- Drop trailing whitespace characters. -/
def rtrimChars (l : List Char) : List Char := (l.reverse.dropWhile isJsSpace).reverse

/-- Model of JavaScript `s.trim()`. -/
def jsTrim (s : String) : String := String.mk (rtrimChars (ltrimChars s.data))

/-- Model of JavaScript `s.startsWith(p)`. -/
def jsStartsWith (s p : String) : Bool := p.data.isPrefixOf s.data

/-- Model of JavaScript `s.toLowerCase()` (ASCII fragment; `Char.toLower`
lower-cases exactly the letters `A`–`Z`, which covers every case-sensitive
comparison made by the source: category tokens and search queries). -/
def jsToLower (s : String) : String := String.mk (s.data.map Char.toLower)

/-- Splitter underlying JavaScript `s.split(sep)` for a non-empty string
separator `c :: cs`: cut at each non-overlapping leftmost occurrence of
the separator, keeping empty fields (exactly as the JavaScript method
does).  Structural recursion on a fuel argument keeps the definition
kernel-reducible; every recursive step consumes at least one character,
so any `fuel ≥ l.length` computes the untruncated split. -/
def splitSepFuel (c : Char) (cs : List Char) : Nat → List Char → List (List Char)
  | 0, l => [l]
  | _ + 1, [] => [[]]
  | fuel + 1, a :: rest =>
    if (c :: cs).isPrefixOf (a :: rest) then
      [] :: splitSepFuel c cs fuel (rest.drop cs.length)
    else
      match splitSepFuel c cs fuel rest with
      | [] => [[a]]
      | grp :: t => (a :: grp) :: t

/-- Model of JavaScript `s.split(sep)` for a non-empty string separator.
(No call site in the source uses an empty separator; that case is mapped
to the identity split.) -/
def jsSplit (sep : String) (s : String) : List String :=
  match sep.data with
  | [] => [s]
  | c :: cs => (splitSepFuel c cs s.data.length s.data).map String.mk

/-- Cut a character list at every character satisfying `p`, keeping empty
groups.  Composed with an empty-token filter this models the JavaScript
regex split `s.split(/\s+/g)` (which merges whitespace runs): per-run
splitting and per-character splitting differ only in the empty tokens the
caller discards. -/
def splitIf (p : Char → Bool) : List Char → List (List Char)
  | [] => [[]]
  | a :: rest =>
    if p a then [] :: splitIf p rest
    else
      match splitIf p rest with
      | [] => [[a]]
      | grp :: t => (a :: grp) :: t

/-- Model of JavaScript `s.split(/\s+/g)` up to the empty tokens that every
caller filters out. -/
def jsSplitWs (s : String) : List String := (splitIf isJsSpace s.data).map String.mk

namespace Archive

/-- `normalizeList` from `src/components/archive.tsx` (lines 55–60):
split on `sep`, trim every token, keep the truthy (non-empty) ones. -/
def normalizeList (s : String) (sep : String) : List String :=
  ((jsSplit sep s).map jsTrim).filter (· ≠ "")

/-- `normalizeTags` from `src/components/archive.tsx` (lines 62–77):
prefer commas, then semicolons, then pipes, then whitespace. -/
def normalizeTags (s : String) : List String :=
  let raw := jsTrim s
  if raw = "" then []
  else
    let c := normalizeList raw ","
    if c.length > 1 then c
    else
      let sc := normalizeList raw ";"
      if sc.length > 1 then sc
      else
        let p := normalizeList raw "|"
        if p.length > 1 then p
        else ((jsSplitWs raw).map jsTrim).filter (· ≠ "")

/-- `CATEGORY_KEYS` from `src/components/archive.tsx` (line 25). -/
def CATEGORY_KEYS : List String := ["article", "lecture", "python"]

/-- `normalizeCategories` from `src/components/archive.tsx` (lines 79–102):
split like a list field (single token allowed), lower-case and trim each
candidate, remap the legacy synonyms, and keep only members of
`CATEGORY_KEYS`. -/
def normalizeCategories (s : String) : List String :=
  let raw := jsTrim s
  if raw = "" then []
  else
    let candidates :=
      if (normalizeList raw ",").length > 1 then normalizeList raw ","
      else if (normalizeList raw ";").length > 1 then normalizeList raw ";"
      else if (normalizeList raw "|").length > 1 then normalizeList raw "|"
      else [raw]
    (candidates.map (fun c =>
      let x := jsTrim (jsToLower c)
      if x = "tool" then "python"
      else if x = "python code" then "python"
      else if x = "py" then "python"
      else x)).filter (fun x => CATEGORY_KEYS.contains x)

/-- `FileItem` from `src/components/archive.tsx` (line 23). -/
structure FileItem where
  name : String
  url : String
deriving DecidableEq, Repr

/-- `normalizeFiles` from `src/components/archive.tsx` (lines 104–120):
split on `|`, trim, drop empties; each part is split on `::` into
`name`/`url` (a missing url component destructures to `undefined`, hence
`""`); a bare token starting with `http` becomes a `File`-named entry;
an empty name falls back to `"File"`; entries with an empty url are
dropped. -/
def normalizeFiles (s : String) : List FileItem :=
  ((((jsSplit "|" s).map jsTrim).filter (· ≠ "")).map (fun part =>
    let comps := jsSplit "::" part
    let name := jsTrim (comps.getD 0 "")
    let url := jsTrim (comps.getD 1 "")
    if url = "" && jsStartsWith name "http" then { name := "File", url := name }
    else { name := if name = "" then "File" else name, url := url })).filter
    (fun x => x.url ≠ "")

/-- `ResourceRow` from `src/components/archive.tsx` (lines 13–21); every
field is optional in the parsed CSV row. -/
structure ResourceRow where
  id : Option String := none
  title : Option String := none
  description : Option String := none
  categories : Option String := none
  tags : Option String := none
  files : Option String := none
  createdAt : Option String := none
deriving DecidableEq, Repr

/-- `Resource` from `src/components/archive.tsx` (lines 28–36). -/
structure Resource where
  id : String
  title : String
  description : String
  categories : List String
  tags : List String
  fileItems : List FileItem
  createdAt : Option String
deriving DecidableEq, Repr

/-- `toResource` from `src/components/archive.tsx` (lines 122–134).
(`r.id || ""` reads the field with `""` for `undefined`; the trailing
`|| undefined` on `createdAt` maps an empty trim back to `none`.) -/
def toResource (r : ResourceRow) : Resource :=
  let id := jsTrim (r.id.getD "")
  let title := jsTrim (r.title.getD "")
  { id := id
    title := title
    description := jsTrim (r.description.getD "")
    categories := normalizeCategories (r.categories.getD "")
    tags := normalizeTags (r.tags.getD "")
    fileItems := normalizeFiles (r.files.getD "")
    createdAt := if jsTrim (r.createdAt.getD "") = "" then none
      else some (jsTrim (r.createdAt.getD "")) }

/-- The record set kept by the archive page after a successful load
(`src/components/archive.tsx` lines 220–222): normalize every row, keep
those with truthy `id` and `title`. -/
def archiveData (rows : List ResourceRow) : List Resource :=
  (rows.map toResource).filter (fun r => r.id ≠ "" ∧ r.title ≠ "")

end Archive

/-- The exact value of a finite JavaScript number as an unreduced
fraction with a positive denominator (all constructors below produce
denominators `10^k` or `1`).  The source uses `order` values only
through the sign and zero test of a difference and through comparisons,
all of which factor through the represented rational value, so no
normalization is needed (and the representation stays kernel-
computable).  IEEE-754 rounding of the parsed literal is outside the
shallow embedding: values are the exact rationals the literal denotes,
which agrees with the float semantics on every comparison except between
decimals so close that they round to the same double. -/
structure JsNum where
  num : Int
  den : Nat
deriving DecidableEq, Repr

instance : LT JsNum :=
  ⟨fun a b => a.num * (b.den : Int) < b.num * (a.den : Int)⟩

instance (a b : JsNum) : Decidable (a < b) :=
  inferInstanceAs (Decidable (a.num * (b.den : Int) < b.num * (a.den : Int)))

instance (n : Nat) : OfNat JsNum n := ⟨⟨n, 1⟩⟩

/-- Negation of a parsed value (the leading `-` of a numeric literal). -/
def JsNum.neg (a : JsNum) : JsNum := ⟨-a.num, a.den⟩

/-- Integer surrogate of the JavaScript float difference `a - b`: the
cross product `a.num * b.den - b.num * a.den` has the same sign and the
same zero set as the real difference (denominators are positive), and
sign/zero is all the source ever observes of `a.order - b.order` (the
`||` falsiness test and the sort ordering). -/
def JsNum.sub (a b : JsNum) : Int :=
  a.num * (b.den : Int) - b.num * (a.den : Int)

/-- Numeric value of a digit in bases up to 16 (callers validate the
digit first). -/
def digitVal (c : Char) : Nat :=
  if c.isDigit then c.toNat - 48
  else if 'a' ≤ c ∧ c ≤ 'f' then c.toNat - 87
  else if 'A' ≤ c ∧ c ≤ 'F' then c.toNat - 55
  else 0

/-- Value of a validated digit string in the given base. -/
def natFromDigits (base : Nat) (l : List Char) : Nat :=
  l.foldl (fun n c => n * base + digitVal c) 0

def isHexDigit (c : Char) : Bool :=
  c.isDigit || ('a' ≤ c ∧ c ≤ 'f') || ('A' ≤ c ∧ c ≤ 'F')

def isOctDigit (c : Char) : Bool := '0' ≤ c ∧ c ≤ '7'

def isBinDigit (c : Char) : Bool := c == '0' || c == '1'

/-- The optional `e`/`E` exponent suffix of a decimal literal: an
optional sign and one or more digits, consuming the rest of the input;
anything else is `NaN`. -/
def parseExpSuffix (mant : JsNum) : List Char → Option JsNum
  | [] => some mant
  | e :: rest =>
    if e == 'e' || e == 'E' then
      match rest with
      | '+' :: ds =>
        if ds ≠ [] ∧ ds.all Char.isDigit then
          some ⟨mant.num * ((10 ^ natFromDigits 10 ds : Nat) : Int), mant.den⟩
        else none
      | '-' :: ds =>
        if ds ≠ [] ∧ ds.all Char.isDigit then
          some ⟨mant.num, mant.den * 10 ^ natFromDigits 10 ds⟩
        else none
      | ds =>
        if ds ≠ [] ∧ ds.all Char.isDigit then
          some ⟨mant.num * ((10 ^ natFromDigits 10 ds : Nat) : Int), mant.den⟩
        else none
    else none

/-- An unsigned decimal literal: `digits [. digits?] [exp]` or
`. digits [exp]`; a lone `.` or a leftover suffix is `NaN`. -/
def parseDecBody (l : List Char) : Option JsNum :=
  let ip := l.takeWhile Char.isDigit
  let rest1 := l.dropWhile Char.isDigit
  match rest1 with
  | '.' :: rest2 =>
    let fp := rest2.takeWhile Char.isDigit
    let rest3 := rest2.dropWhile Char.isDigit
    if ip = [] ∧ fp = [] then none
    else
      parseExpSuffix
        ⟨((natFromDigits 10 ip * 10 ^ fp.length + natFromDigits 10 fp : Nat) : Int),
         10 ^ fp.length⟩
        rest3
  | _ =>
    if ip = [] then none
    else parseExpSuffix ⟨((natFromDigits 10 ip : Nat) : Int), 1⟩ rest1

/-- A decimal literal body, where the literal `Infinity` is mapped to
`none` because the caller (`toNumber`) filters non-finite values through
`Number.isFinite` and falls back exactly as it does for `NaN`. -/
def parseDecOrInf (l : List Char) : Option JsNum :=
  if l = "Infinity".data then none
  else parseDecBody l

/-- A decimal literal with an optional sign (the sign distributes over
`Infinity` as well, which stays `none`). -/
def parseSignedDec : List Char → Option JsNum
  | '+' :: rest => parseDecOrInf rest
  | '-' :: rest => (parseDecOrInf rest).map JsNum.neg
  | l => parseDecOrInf l

/-- Model of the composition `Number(s)` followed by the
`Number.isFinite` filter applied by `toNumber`, for a trimmed input:
the `StrNumericLiteral` grammar — signed decimal with optional fraction
and exponent, unsigned `0x`/`0o`/`0b` radix literals, `Infinity` — with
`none` for `NaN` and for the non-finite values the source also maps to
its fallback. -/
def parseJsNumber (s : String) : Option JsNum :=
  match s.data with
  | '0' :: x :: rest =>
    if x == 'x' || x == 'X' then
      if rest ≠ [] ∧ rest.all isHexDigit then some ⟨((natFromDigits 16 rest : Nat) : Int), 1⟩
      else none
    else if x == 'o' || x == 'O' then
      if rest ≠ [] ∧ rest.all isOctDigit then some ⟨((natFromDigits 8 rest : Nat) : Int), 1⟩
      else none
    else if x == 'b' || x == 'B' then
      if rest ≠ [] ∧ rest.all isBinDigit then some ⟨((natFromDigits 2 rest : Nat) : Int), 1⟩
      else none
    else parseSignedDec s.data
  | _ => parseSignedDec s.data

/-- `toNumber` as duplicated verbatim in `src/app/people/page.tsx`
(lines 69–75), `src/app/projects/page.tsx` (lines 69–75) and
`src/app/publications/page.tsx` (lines 79–85): stringify the cell
(`undefined` becomes `""` via `v ?? ""`), trim, convert with `Number`,
and fall back on an empty string or a non-finite result. -/
def toNumber (v : Option String) (fallback : JsNum) : JsNum :=
  let s := jsTrim (v.getD "")
  if s = "" then fallback
  else
    match parseJsNumber s with
    | some n => n
    | none => fallback

/-- `isHttpUrl` as duplicated verbatim in `src/app/people/page.tsx`
(lines 54–57), `src/app/projects/page.tsx` (lines 58–61),
`src/app/publications/page.tsx` (lines 74–77) and the news page. -/
def isHttpUrl (s : Option String) : Bool :=
  let v := jsTrim (s.getD "")
  jsStartsWith v "http://" || jsStartsWith v "https://"

/-- The `(x || "").trim() || undefined` idiom used for optional plain
string fields: an empty trim maps back to `undefined`. -/
def optTrim (s : Option String) : Option String :=
  let t := jsTrim (s.getD "")
  if t = "" then none else some t

/-- `normalizeTags` as duplicated verbatim in `src/app/projects/page.tsx`
(lines 46–56), `src/app/publications/page.tsx` (lines 62–72) and the news
page: identical algorithm to `Archive.normalizeTags` with the splits
inlined and an optional argument. -/
def normalizeTags (s : Option String) : List String :=
  let raw := jsTrim (s.getD "")
  if raw = "" then []
  else
    let comma := ((jsSplit "," raw).map jsTrim).filter (· ≠ "")
    if comma.length > 1 then comma
    else
      let semi := ((jsSplit ";" raw).map jsTrim).filter (· ≠ "")
      if semi.length > 1 then semi
      else
        let pipe := ((jsSplit "|" raw).map jsTrim).filter (· ≠ "")
        if pipe.length > 1 then pipe
        else ((jsSplitWs raw).map jsTrim).filter (· ≠ "")

/-- `normalizeDate` as duplicated in `src/app/projects/page.tsx`
(lines 77–87) and the news page.  The branch that reparses a
non-`YYYY-MM-DD` string through the JavaScript `Date` engine and
reformats it is outside the shallow embedding and is modelled as
returning the trimmed input verbatim (which coincides with the source
exactly when the string is not `Date`-parseable).  No claim in this
development depends on date values: dates only pass through record
constructors. -/
def normalizeDate (s : Option String) : Option String :=
  let raw := jsTrim (s.getD "")
  if raw = "" then none else some raw

/-- Code-point lexicographic string comparison, the behaviour of
`String.prototype.localeCompare` on the ASCII identifiers and titles the
sort comparators are applied to (only its sign is ever used). -/
def strCmp (a b : String) : Int :=
  let rec go : List Char → List Char → Int
    | [], [] => 0
    | [], _ :: _ => -1
    | _ :: _, [] => 1
    | x :: xs, y :: ys =>
      if x.toNat < y.toNat then -1
      else if y.toNat < x.toNat then 1
      else go xs ys
  go a.data b.data

/-- Insert `a` into `l` before the first element it compares `≤ 0`
against. -/
def insertCmp (cmp : α → α → Int) (a : α) : List α → List α
  | [] => [a]
  | b :: l => if cmp a b ≤ 0 then a :: b :: l else b :: insertCmp cmp a l

/-- Stable insertion sort; models the observable contract of
`Array.prototype.sort(cmp)` (ES2019+: stable, ordered by the sign of the
comparator). -/
def jsSortBy (cmp : α → α → Int) : List α → List α
  | [] => []
  | a :: l => insertCmp cmp a (jsSortBy cmp l)

/-- Model of JavaScript `s.includes(sub)`: for a non-empty `sub`, the
split at `sub` has more than one field exactly when `sub` occurs in `s`;
`s.includes("")` is `true`. -/
def jsIncludes (s sub : String) : Bool :=
  match sub.data with
  | [] => true
  | c :: cs => (splitSepFuel c cs s.data.length s.data).length != 1

/-- Model of JavaScript `arr.join(sep)`. -/
def jsJoin (sep : String) : List String → String
  | [] => ""
  | [x] => x
  | x :: xs => x ++ sep ++ jsJoin sep xs

namespace People

/-- `normalizeList` from `src/app/people/page.tsx` (lines 42–52). -/
def normalizeList (s : String) : List String :=
  let raw := jsTrim s
  if raw = "" then []
  else
    let comma := ((jsSplit "," raw).map jsTrim).filter (· ≠ "")
    if comma.length > 1 then comma
    else
      let semi := ((jsSplit ";" raw).map jsTrim).filter (· ≠ "")
      if semi.length > 1 then semi
      else
        let pipe := ((jsSplit "|" raw).map jsTrim).filter (· ≠ "")
        if pipe.length > 1 then pipe
        else ((jsSplitWs raw).map jsTrim).filter (· ≠ "")

/-- The `0000-0000-0000-000X` shape tested by the regex
`/^\d{4}-\d{4}-\d{4}-\d{3}[\dX]$/i` in `normalizeOrcid`. -/
def isOrcidShape (l : List Char) : Bool :=
  match l with
  | [a1, a2, a3, a4, '-', b1, b2, b3, b4, '-', c1, c2, c3, c4, '-', d1, d2, d3, d4] =>
    [a1, a2, a3, a4, b1, b2, b3, b4, c1, c2, c3, c4, d1, d2, d3].all Char.isDigit
      && (d4.isDigit || d4 == 'X' || d4 == 'x')
  | _ => false

/-- `normalizeOrcid` from `src/app/people/page.tsx` (lines 59–67). -/
def normalizeOrcid (s : Option String) : Option String :=
  let raw := jsTrim (s.getD "")
  if raw = "" then none
  else if jsStartsWith raw "http" then some raw
  else if isOrcidShape raw.data then some ("https://orcid.org/" ++ raw)
  else some raw

/-- `PeopleRow` from `src/app/people/page.tsx` (lines 8–21). -/
structure PeopleRow where
  id : Option String := none
  name : Option String := none
  role : Option String := none
  status : Option String := none
  interests : Option String := none
  methods : Option String := none
  photoUrl : Option String := none
  website : Option String := none
  orcid : Option String := none
  email : Option String := none
  affiliation : Option String := none
  order : Option String := none
deriving DecidableEq, Repr

/-- `Person` from `src/app/people/page.tsx` (lines 23–36). -/
structure Person where
  id : String
  name : String
  role : Option String
  status : Option String
  interests : List String
  methods : List String
  photoUrl : Option String
  website : Option String
  orcid : Option String
  email : Option String
  affiliation : Option String
  order : JsNum
deriving DecidableEq, Repr

/-- `toPerson` from `src/app/people/page.tsx` (lines 77–98). -/
def toPerson (r : PeopleRow) : Person :=
  { id := jsTrim (r.id.getD "")
    name := jsTrim (r.name.getD "")
    role := optTrim r.role
    status := optTrim r.status
    interests := normalizeList (r.interests.getD "")
    methods := normalizeList (r.methods.getD "")
    photoUrl := if isHttpUrl r.photoUrl then some (jsTrim (r.photoUrl.getD "")) else none
    website := if isHttpUrl r.website then some (jsTrim (r.website.getD "")) else none
    orcid := normalizeOrcid r.orcid
    email := optTrim r.email
    affiliation := optTrim r.affiliation
    order := toNumber r.order 9999 }

/-- The comparator `(a, b) => a.order - b.order || a.name.localeCompare(b.name)`
from `src/app/people/page.tsx` (line 167); a zero numeric difference is
falsy in JavaScript, so ties fall through to the name comparison.
`JsNum.sub` is the sign-and-zero surrogate of the float difference. -/
def personCmp (a b : Person) : Int :=
  if JsNum.sub a.order b.order = 0 then strCmp a.name b.name
  else JsNum.sub a.order b.order

/-- The record set kept by the people page after a successful load
(`src/app/people/page.tsx` lines 164–169): normalize, keep rows with
truthy `id` and `name`, sort. -/
def peopleData (rows : List PeopleRow) : List Person :=
  jsSortBy personCmp ((rows.map toPerson).filter (fun p => p.id ≠ "" ∧ p.name ≠ ""))

end People

namespace Projects

/-- `isLocalPublicPath` from `src/app/projects/page.tsx` (lines 63–67). -/
def isLocalPublicPath (s : Option String) : Bool :=
  jsStartsWith (jsTrim (s.getD "")) "/"

/-- `ProjectRow` from `src/app/projects/page.tsx` (lines 7–21). -/
structure ProjectRow where
  id : Option String := none
  title : Option String := none
  status : Option String := none
  description : Option String := none
  tags : Option String := none
  startdate : Option String := none
  enddate : Option String := none
  url : Option String := none
  repo : Option String := none
  order : Option String := none
  imageurl : Option String := none
deriving DecidableEq, Repr

/-- `Project` from `src/app/projects/page.tsx` (lines 23–36). -/
structure Project where
  id : String
  title : String
  status : Option String
  description : Option String
  tags : List String
  startDate : Option String
  endDate : Option String
  url : Option String
  repo : Option String
  order : JsNum
  imageUrl : Option String
deriving DecidableEq, Repr

/-- `toProject` from `src/app/projects/page.tsx` (lines 89–106). -/
def toProject (r : ProjectRow) : Project :=
  let imgRaw := jsTrim (r.imageurl.getD "")
  let imageUrl :=
    if imgRaw ≠ "" ∧ (isHttpUrl (some imgRaw) || isLocalPublicPath (some imgRaw)) then
      some imgRaw
    else none
  { id := jsTrim (r.id.getD "")
    title := jsTrim (r.title.getD "")
    status := optTrim r.status
    description := optTrim r.description
    tags := normalizeTags r.tags
    startDate := normalizeDate r.startdate
    endDate := normalizeDate r.enddate
    url := if isHttpUrl r.url then some (jsTrim (r.url.getD "")) else none
    repo := if isHttpUrl r.repo then some (jsTrim (r.repo.getD "")) else none
    order := toNumber r.order 9999
    imageUrl := imageUrl }

/-- The comparator `(a, b) => a.order - b.order || a.title.localeCompare(b.title)`
from `src/app/projects/page.tsx` (line 168); a zero difference is falsy,
so ties fall through to the title comparison.  `JsNum.sub` is the
sign-and-zero surrogate of the float difference. -/
def projectCmp (a b : Project) : Int :=
  if JsNum.sub a.order b.order = 0 then strCmp a.title b.title
  else JsNum.sub a.order b.order

/-- The record set kept by the projects page after a successful load
(`src/app/projects/page.tsx` lines 165–168): normalize, keep rows with
truthy `id` and `title`, sort. -/
def projectsData (rows : List ProjectRow) : List Project :=
  jsSortBy projectCmp ((rows.map toProject).filter (fun p => p.id ≠ "" ∧ p.title ≠ ""))

/-- Outcome of the `fetch` call, as seen by `load`: either the promise
rejects (network failure) or a response with `ok`/`status`/body text
arrives. -/
inductive FetchOutcome where
  | throws (msg : String)
  | response (ok : Bool) (status : Nat) (text : String)
deriving DecidableEq, Repr

/-- Outcome of `Papa.parse` plus the header-alias row mapping
(`src/app/projects/page.tsx` lines 142–163): either the parser throws or
it yields the aliased rows.  The parser is an external library, so its
outcome is an oracle input to the load model. -/
inductive ParseOutcome where
  | throws (msg : String)
  | rows (rs : List ProjectRow)
deriving DecidableEq, Repr

/-- The environment one invocation of `load` runs against: the configured
feed URL (`process.env.NEXT_PUBLIC_PROJECTS_SHEET_CSV_URL`, possibly
absent) and the fetch/parse outcomes. -/
structure LoadEnv where
  envUrl : Option String
  fetch : FetchOutcome
  parse : ParseOutcome

/-- The page state written by one completed invocation of `load`
(`setProjects` / `setErrMsg`). -/
structure PageState where
  projects : List Project
  errMsg : Option String
deriving DecidableEq, Repr

/-- The message produced by the catch block
(`src/app/projects/page.tsx` line 182): a thrown error's message when
truthy, otherwise the generic fallback. -/
def catchMsg (m : String) : String :=
  if m = "" then "Unknown error while loading Projects sheet." else m

/-- `load` from `src/app/projects/page.tsx` (lines 125–186), as the pure
function from its environment to the state it leaves behind: a missing
URL throws before any network call; a rejected fetch, a non-ok status or
a throwing parse all land in the catch block, which clears the record set
and stores a message; otherwise the normalized, filtered, sorted record
set is stored and the error is cleared. -/
def load (env : LoadEnv) : PageState :=
  let sheetUrl := jsTrim (env.envUrl.getD "")
  if sheetUrl = "" then
    { projects := [], errMsg := some (catchMsg "NEXT_PUBLIC_PROJECTS_SHEET_CSV_URL is not set.") }
  else
    match env.fetch with
    | .throws m => { projects := [], errMsg := some (catchMsg m) }
    | .response ok status _ =>
      if !ok then { projects := [], errMsg := some (catchMsg ("HTTP " ++ toString status)) }
      else
        match env.parse with
        | .throws m => { projects := [], errMsg := some (catchMsg m) }
        | .rows rs => { projects := projectsData rs, errMsg := none }

end Projects

namespace Pubs

/-- `PublicationRow` from `src/app/publications/page.tsx` (lines 15–34). -/
structure PublicationRow where
  id : Option String := none
  title : Option String := none
  authors : Option String := none
  year : Option String := none
  journal : Option String := none
  venue : Option String := none
  type : Option String := none
  tags : Option String := none
  url : Option String := none
  pdf : Option String := none
  doi : Option String := none
  abstract : Option String := none
  order : Option String := none
deriving DecidableEq, Repr

/-- `Publication` from `src/app/publications/page.tsx` (lines 36–52). -/
structure Publication where
  id : String
  title : String
  authors : Option String
  year : Option Nat
  journal : Option String
  venue : Option String
  type : Option String
  tags : List String
  url : Option String
  pdf : Option String
  doi : Option String
  abstract : Option String
  order : JsNum
deriving DecidableEq, Repr

/-- JavaScript word characters (`\w` = `[A-Za-z0-9_]`), for the word
boundaries in `toYear`'s regex. -/
def isWordChar (c : Char) : Bool := c.isAlphanum || c == '_'

/-- Left-to-right scan for the first match of `\b(\d{4})\b`: four digits
with no word character immediately before or after.  `prev` is the
character preceding the current position (`none` at the start). -/
def findYear : Option Char → List Char → Option Nat
  | prev, d1 :: d2 :: d3 :: d4 :: rest =>
    if d1.isDigit && d2.isDigit && d3.isDigit && d4.isDigit
        && (match prev with | none => true | some p => !isWordChar p)
        && (match rest with | [] => true | r :: _ => !isWordChar r) then
      some ([d1, d2, d3, d4].foldl (fun n ch => n * 10 + (ch.toNat - 48)) 0)
    else
      findYear (some d1) (d2 :: d3 :: d4 :: rest)
  | _, _ => none

/-- `toYear` from `src/app/publications/page.tsx` (lines 87–96). -/
def toYear (v : Option String) : Option Nat :=
  let s := jsTrim (v.getD "")
  if s = "" then none
  else
    match findYear none s.data with
    | none => none
    | some n => if n < 1900 ∨ n > 2100 then none else some n

/-- The regex replace `doi.replace(/^https?:\/\/doi\.org\//, "")` from
`src/app/publications/page.tsx` (line 104): strip one leading
`http(s)://doi.org/` if present. -/
def stripDoiOrg (s : String) : String :=
  if jsStartsWith s "https://doi.org/" then String.mk (s.data.drop 16)
  else if jsStartsWith s "http://doi.org/" then String.mk (s.data.drop 15)
  else s

/-- JavaScript `a || b` on optional strings (`undefined` and `""` are
falsy). -/
def jsOrStr (a b : Option String) : Option String :=
  if a.getD "" = "" then b else a

/-- `toPublication` from `src/app/publications/page.tsx` (lines 98–126).
A DOI-derived `https://doi.org/...` link is built only when no valid
http(s) `url` is present, and the final `url` field is `url || doiUrl`. -/
def toPublication (r : PublicationRow) : Publication :=
  let url := if isHttpUrl r.url then some (jsTrim (r.url.getD "")) else none
  let pdf := if isHttpUrl r.pdf then some (jsTrim (r.pdf.getD "")) else none
  let doi := optTrim r.doi
  let doiUrl :=
    match url, doi with
    | none, some d => some ("https://doi.org/" ++ stripDoiOrg d)
    | _, _ => none
  { id := jsTrim (r.id.getD "")
    title := jsTrim (r.title.getD "")
    authors := optTrim r.authors
    year := toYear r.year
    journal := optTrim r.journal
    venue := optTrim r.venue
    type := optTrim r.type
    tags := normalizeTags r.tags
    url := jsOrStr url doiUrl
    pdf := pdf
    doi := doi
    abstract := optTrim r.abstract
    order := toNumber r.order 9999 }

end Pubs

namespace News

/-- `NewsRow` from the news page (`src/unnamed/part_001` lines 8–16). -/
structure NewsRow where
  id : Option String := none
  title : Option String := none
  date : Option String := none
  summary : Option String := none
  url : Option String := none
  tags : Option String := none
  imageurl : Option String := none
deriving DecidableEq, Repr

/-- `NewsItem` from the news page (`src/unnamed/part_001` lines 18–26). -/
structure NewsItem where
  id : String
  title : String
  date : Option String
  summary : Option String
  url : Option String
  tags : List String
  imageUrl : Option String
deriving DecidableEq, Repr

/-- `toNewsItem` from the news page (`src/unnamed/part_001` lines 65–76).
Note that the news `imageUrl` is guarded by `isHttpUrl` alone — unlike
the projects page it does not admit root-relative `/...` paths. -/
def toNewsItem (r : NewsRow) : NewsItem :=
  let imageUrl := if isHttpUrl r.imageurl then some (jsTrim (r.imageurl.getD "")) else none
  { id := jsTrim (r.id.getD "")
    title := jsTrim (r.title.getD "")
    date := normalizeDate r.date
    summary := optTrim r.summary
    url := if isHttpUrl r.url then some (jsTrim (r.url.getD "")) else none
    tags := normalizeTags r.tags
    imageUrl := imageUrl }

end News

namespace Archive

/-- `TabKey` from `src/components/archive.tsx` (line 38). -/
inductive TabKey where
  | all
  | python
  | lecture
  | article
deriving DecidableEq, Repr, BEq

/-- One entry of `TABS`; the source field `match` is a Lean keyword and is
called `cats` here. -/
structure TabDef where
  key : TabKey
  label : String
  cats : List String
deriving Repr

/-- `TABS` from `src/components/archive.tsx` (lines 40–49). -/
def TABS : List TabDef :=
  [⟨.all, "All", CATEGORY_KEYS⟩,
   ⟨.python, "Python code", ["python"]⟩,
   ⟨.lecture, "Lecture", ["lecture"]⟩,
   ⟨.article, "Article", ["article"]⟩]

/-- The category test of the first filter in `filtered`
(`src/components/archive.tsx` lines 263–269): the active tab is looked up
in `TABS` (falling back to `TABS[0]`), tab `all` passes everything,
otherwise any category of the record may match the tab's list. -/
def matchesTab (tab : TabKey) (r : Resource) : Bool :=
  let active := (TABS.find? (fun t => t.key == tab)).getD ⟨.all, "All", CATEGORY_KEYS⟩
  if active.key = .all then true
  else r.categories.any (fun c => active.cats.contains c)

/-- The free-text test of the second filter in `filtered`
(`src/components/archive.tsx` lines 262, 270–276): the trimmed,
lower-cased query; empty passes everything, otherwise a substring test
against the lower-cased concatenation of title, description, joined tags
and joined categories. -/
def matchesQuery (query : String) (r : Resource) : Bool :=
  let q := jsToLower (jsTrim query)
  if q = "" then true
  else
    jsIncludes
      (jsToLower (jsJoin " " [r.title, r.description, jsJoin " " r.tags, jsJoin " " r.categories]))
      q

/-- `filtered` from `src/components/archive.tsx` (lines 261–277): the
category filter chained with the free-text filter. -/
def filtered (rows : List Resource) (tab : TabKey) (query : String) : List Resource :=
  (rows.filter (matchesTab tab)).filter (matchesQuery query)

/-- State of the load race: the record set plus one cancellation flag per
effect invocation (`let cancelled = false` in the `useEffect` of
`src/components/archive.tsx`, lines 180–249). -/
structure RaceState where
  rows : List Resource
  cancelled1 : Bool
  cancelled2 : Bool
deriving DecidableEq, Repr

/-- Events of a two-load race: the second load being triggered while the
first is in flight, and each load's response resolving with its parsed
record set. -/
inductive RaceEvent where
  | trigger2
  | resolve1 (data : List Resource)
  | resolve2 (data : List Resource)
deriving DecidableEq, Repr

/-- Archive-page semantics of a race event
(`src/components/archive.tsx` lines 180–249): re-triggering runs the
previous effect's cleanup, which sets that invocation's `cancelled` flag;
a resolving load writes `setRows(data)` only if its own flag is still
clear (`if (!cancelled)`). -/
def archiveStep (s : RaceState) : RaceEvent → RaceState
  | .trigger2 => { s with cancelled1 := true }
  | .resolve1 d => if s.cancelled1 then s else { s with rows := d }
  | .resolve2 d => if s.cancelled2 then s else { s with rows := d }

/-- Projects-page semantics of a race event
(`src/app/projects/page.tsx` lines 125–186): `load()` has no cancellation
flag, so triggering a new load does nothing to the old one and every
resolving load writes `setProjects(data)` unconditionally. -/
def projectsStep (s : RaceState) : RaceEvent → RaceState
  | .trigger2 => s
  | .resolve1 d => { s with rows := d }
  | .resolve2 d => { s with rows := d }

/-- Run a race from the initial state (empty record set, no flag set). -/
def runRace (step : RaceState → RaceEvent → RaceState) (events : List RaceEvent) : RaceState :=
  events.foldl step ⟨[], false, false⟩

end Archive

/-! ### Supporting lemmas -/

theorem dropWhile_eq_self_of_isPrefix {p : Char → Bool} {y z : List Char}
    (hy : y.dropWhile p = y) (hz : z <+: y) : z.dropWhile p = z := by
  cases z with
  | nil => rfl
  | cons a z' =>
    obtain ⟨t, ht⟩ := hz
    subst ht
    rw [List.cons_append, List.dropWhile_cons] at hy
    by_cases hpa : p a
    · rw [if_pos hpa] at hy
      have hlen : (List.dropWhile p (z' ++ t)).length = (z' ++ t).length + 1 := by
        rw [hy]
        rfl
      have hle : (List.dropWhile p (z' ++ t)).length ≤ (z' ++ t).length :=
        (List.dropWhile_sublist p).length_le
      omega
    · rw [List.dropWhile_cons, if_neg hpa]

theorem ltrimChars_idem (l : List Char) : ltrimChars (ltrimChars l) = ltrimChars l := by
  unfold ltrimChars
  rw [List.dropWhile_idempotent]

theorem rtrimChars_idem (l : List Char) : rtrimChars (rtrimChars l) = rtrimChars l := by
  unfold rtrimChars
  rw [List.reverse_reverse, List.dropWhile_idempotent]

theorem ltrimChars_rtrimChars {l : List Char} (h : ltrimChars l = l) :
    ltrimChars (rtrimChars l) = rtrimChars l := by
  apply dropWhile_eq_self_of_isPrefix h
  unfold rtrimChars
  have hsuf : l.reverse.dropWhile isJsSpace <:+ l.reverse := List.dropWhile_suffix _
  have := List.reverse_prefix.mpr hsuf
  rwa [List.reverse_reverse] at this

/-- `trim` is idempotent: the JavaScript trim of a trimmed string is
itself. -/
theorem jsTrim_idem (s : String) : jsTrim (jsTrim s) = jsTrim s := by
  show String.mk (rtrimChars (ltrimChars (rtrimChars (ltrimChars s.data)))) =
    String.mk (rtrimChars (ltrimChars s.data))
  rw [ltrimChars_rtrimChars (ltrimChars_idem s.data), rtrimChars_idem]

/-- Every member of a `.map(jsTrim).filter(nonempty)` pipeline is a
non-empty trimmed token. -/
theorem mem_trimFilter {l : List String} {t : String}
    (h : t ∈ (l.map jsTrim).filter (· ≠ "")) : t ≠ "" ∧ jsTrim t = t := by
  rw [List.mem_filter] at h
  obtain ⟨h1, h2⟩ := h
  obtain ⟨u, _, rfl⟩ := List.mem_map.mp h1
  exact ⟨by simpa using h2, jsTrim_idem u⟩

theorem splitSepFuel_ne_nil (c : Char) (cs : List Char) (fuel : Nat) (l : List Char) :
    splitSepFuel c cs fuel l ≠ [] := by
  induction fuel generalizing l with
  | zero => simp [splitSepFuel]
  | succ fuel ih =>
    cases l with
    | nil => simp [splitSepFuel]
    | cons a rest =>
      rw [splitSepFuel]
      split
      · simp
      · split
        · simp
        · simp

/-- A one-field split means the separator does not occur: the split is
the whole input. -/
theorem splitSepFuel_length_one {c : Char} {cs : List Char} {fuel : Nat} {l : List Char}
    (h : (splitSepFuel c cs fuel l).length = 1) : splitSepFuel c cs fuel l = [l] := by
  induction fuel generalizing l with
  | zero => rfl
  | succ fuel ih =>
    cases l with
    | nil => rfl
    | cons a rest =>
      rw [splitSepFuel] at h ⊢
      by_cases hp : (c :: cs).isPrefixOf (a :: rest) = true
      · rw [if_pos hp] at h
        simp at h
        exact absurd h (splitSepFuel_ne_nil c cs fuel _)
      · rw [if_neg hp] at h ⊢
        rcases hsp : splitSepFuel c cs fuel rest with _ | ⟨grp, t⟩
        · exact absurd hsp (splitSepFuel_ne_nil c cs fuel rest)
        · rw [hsp] at h
          simp at h
          subst h
          have hlen : (splitSepFuel c cs fuel rest).length = 1 := by
            rw [hsp]
            rfl
          have hg := ih hlen
          rw [hsp] at hg
          simp at hg
          subst hg
          simp

theorem mem_insertCmp {cmp : α → α → Int} {a x : α} {l : List α} :
    x ∈ insertCmp cmp a l ↔ x = a ∨ x ∈ l := by
  induction l with
  | nil => simp [insertCmp]
  | cons b l ih =>
    rw [insertCmp]
    split
    · simp
    · simp only [List.mem_cons, ih]
      tauto

/-- Sorting never changes membership. -/
theorem mem_jsSortBy {cmp : α → α → Int} {x : α} {l : List α} :
    x ∈ jsSortBy cmp l ↔ x ∈ l := by
  induction l with
  | nil => simp [jsSortBy]
  | cons a l ih =>
    rw [jsSortBy]
    rw [mem_insertCmp, ih]
    simp

/-- An `isHttpUrl` success means the trimmed value is non-empty. -/
theorem ne_empty_of_isHttpUrl {x : Option String} (h : isHttpUrl x = true) :
    jsTrim (x.getD "") ≠ "" := by
  intro he
  unfold isHttpUrl at h
  rw [he] at h
  exact absurd h (by decide)

/-! ### Claim theorems -/

/-- C1: for every parsed input row, a normalized record appears in the
page's record set if and only if both the trimmed id field and the
trimmed title/name field are non-empty; rows failing this test are
dropped and no other field absence causes a row to be rejected (shown
for the archive page's `toResource` pipeline and the people page's
`toPerson` pipeline). -/
theorem required_field_invariant :
    (∀ (rows : List Archive.ResourceRow) (r : Archive.ResourceRow), r ∈ rows →
      (Archive.toResource r ∈ Archive.archiveData rows ↔
        (jsTrim (r.id.getD "") ≠ "" ∧ jsTrim (r.title.getD "") ≠ ""))) ∧
    (∀ (rows : List People.PeopleRow) (r : People.PeopleRow), r ∈ rows →
      (People.toPerson r ∈ People.peopleData rows ↔
        (jsTrim (r.id.getD "") ≠ "" ∧ jsTrim (r.name.getD "") ≠ ""))) := by
  constructor
  · intro rows r hr
    unfold Archive.archiveData
    rw [List.mem_filter]
    constructor
    · rintro ⟨-, h⟩
      simpa [Archive.toResource] using h
    · intro h
      refine ⟨List.mem_map_of_mem _ hr, ?_⟩
      simpa [Archive.toResource] using h
  · intro rows r hr
    unfold People.peopleData
    rw [mem_jsSortBy, List.mem_filter]
    constructor
    · rintro ⟨-, h⟩
      simpa [People.toPerson] using h
    · intro h
      refine ⟨List.mem_map_of_mem _ hr, ?_⟩
      simpa [People.toPerson] using h

/-- Witness for C1 at a concrete row with non-empty id and title. -/
theorem required_field_invariant_witness :
    Archive.toResource { id := some "x", title := some "Title" } ∈
      Archive.archiveData [{ id := some "x", title := some "Title" }] :=
  (required_field_invariant.1 [{ id := some "x", title := some "Title" }]
      { id := some "x", title := some "Title" } (by decide)).mpr (by decide)

/-- C2: the list normalizer splits by the first separator among comma,
semicolon, pipe (in that priority order) that yields more than one token,
falling back to whitespace splitting; every output token is trimmed and
empty tokens are discarded; and the three concrete examples evaluate as
stated (shown for the archive page's `normalizeTags` and the people
page's `normalizeList`, the two normalizers the spec names). -/
theorem list_splitting_determinism :
    Archive.normalizeTags "a, b,c" = ["a", "b", "c"] ∧
    Archive.normalizeTags "a;b;c" = ["a", "b", "c"] ∧
    Archive.normalizeTags "a b c" = ["a", "b", "c"] ∧
    People.normalizeList "a, b,c" = ["a", "b", "c"] ∧
    People.normalizeList "a;b;c" = ["a", "b", "c"] ∧
    People.normalizeList "a b c" = ["a", "b", "c"] ∧
    (∀ s : String,
      ((Archive.normalizeList (jsTrim s) ",").length > 1 →
        Archive.normalizeTags s = Archive.normalizeList (jsTrim s) ",") ∧
      (¬ (Archive.normalizeList (jsTrim s) ",").length > 1 →
        (Archive.normalizeList (jsTrim s) ";").length > 1 →
        Archive.normalizeTags s = Archive.normalizeList (jsTrim s) ";") ∧
      (¬ (Archive.normalizeList (jsTrim s) ",").length > 1 →
        ¬ (Archive.normalizeList (jsTrim s) ";").length > 1 →
        (Archive.normalizeList (jsTrim s) "|").length > 1 →
        Archive.normalizeTags s = Archive.normalizeList (jsTrim s) "|") ∧
      (¬ (Archive.normalizeList (jsTrim s) ",").length > 1 →
        ¬ (Archive.normalizeList (jsTrim s) ";").length > 1 →
        ¬ (Archive.normalizeList (jsTrim s) "|").length > 1 →
        Archive.normalizeTags s = ((jsSplitWs (jsTrim s)).map jsTrim).filter (· ≠ ""))) ∧
    (∀ (s t : String), t ∈ Archive.normalizeTags s → t ≠ "" ∧ jsTrim t = t) ∧
    (∀ (s t : String), t ∈ People.normalizeList s → t ≠ "" ∧ jsTrim t = t) := by
  refine ⟨by decide, by decide, by decide, by decide, by decide, by decide, ?_, ?_, ?_⟩
  · intro s
    by_cases hraw : jsTrim s = ""
    · have hws : ((jsSplitWs (jsTrim s)).map jsTrim).filter (· ≠ "") = [] := by
        rw [hraw]
        decide
      have hnt : Archive.normalizeTags s = [] := by
        unfold Archive.normalizeTags
        simp [hraw]
      refine ⟨?_, ?_, ?_, ?_⟩
      · intro h
        rw [hraw] at h
        exact absurd h (by decide)
      · intro h1 h2
        rw [hraw] at h2
        exact absurd h2 (by decide)
      · intro h1 h2 h3
        rw [hraw] at h3
        exact absurd h3 (by decide)
      · intro h1 h2 h3
        rw [hnt, hws]
    · refine ⟨?_, ?_, ?_, ?_⟩
      · intro h
        unfold Archive.normalizeTags
        simp only [if_neg hraw, if_pos h]
      · intro h1 h2
        unfold Archive.normalizeTags
        simp only [if_neg hraw, if_neg h1, if_pos h2]
      · intro h1 h2 h3
        unfold Archive.normalizeTags
        simp only [if_neg hraw, if_neg h1, if_neg h2, if_pos h3]
      · intro h1 h2 h3
        unfold Archive.normalizeTags
        simp only [if_neg hraw, if_neg h1, if_neg h2, if_neg h3]
  · intro s t ht
    unfold Archive.normalizeTags Archive.normalizeList at ht
    simp only at ht
    split at ht
    · simp at ht
    · split at ht
      · exact mem_trimFilter ht
      · split at ht
        · exact mem_trimFilter ht
        · split at ht
          · exact mem_trimFilter ht
          · exact mem_trimFilter ht
  · intro s t ht
    unfold People.normalizeList at ht
    simp only at ht
    split at ht
    · simp at ht
    · split at ht
      · exact mem_trimFilter ht
      · split at ht
        · exact mem_trimFilter ht
        · split at ht
          · exact mem_trimFilter ht
          · exact mem_trimFilter ht

/-- Witness for C2's conditional conjuncts at concrete inputs: the comma
branch fires on `"x,y"`, and the whitespace fallback fires on `"x y"`. -/
theorem list_splitting_determinism_witness :
    Archive.normalizeTags "x,y" = Archive.normalizeList (jsTrim "x,y") "," ∧
    Archive.normalizeTags "x y" =
      ((jsSplitWs (jsTrim "x y")).map jsTrim).filter (· ≠ "") ∧
    ("x" ≠ "" ∧ jsTrim "x" = "x") :=
  ⟨(list_splitting_determinism.2.2.2.2.2.2.1 "x,y").1 (by decide),
   ((list_splitting_determinism.2.2.2.2.2.2.1 "x y").2.2.2 (by decide) (by decide) (by decide)),
   list_splitting_determinism.2.2.2.2.2.2.2.1 "a x" "x" (by decide)⟩

/-- C3: every element of a normalized category list belongs to the fixed
enumeration `{article, lecture, python}`; the legacy synonyms `tool`,
`py` and `python code` remap to `python`; an unrecognized token such as
`workshop` is silently dropped; and normalizing an already-normalized
category token again leaves it unchanged. -/
theorem category_enumeration_closure :
    (∀ (s c : String), c ∈ Archive.normalizeCategories s → c ∈ Archive.CATEGORY_KEYS) ∧
    Archive.normalizeCategories "workshop" = [] ∧
    Archive.normalizeCategories "tool" = ["python"] ∧
    Archive.normalizeCategories "py" = ["python"] ∧
    Archive.normalizeCategories "python code" = ["python"] ∧
    (∀ (s c : String), c ∈ Archive.normalizeCategories s →
      Archive.normalizeCategories c = [c]) := by
  have closure : ∀ (s c : String), c ∈ Archive.normalizeCategories s →
      c ∈ Archive.CATEGORY_KEYS := by
    intro s c hc
    unfold Archive.normalizeCategories at hc
    simp only at hc
    split at hc
    · simp at hc
    · rw [List.mem_filter] at hc
      exact List.mem_of_elem_eq_true hc.2
  refine ⟨closure, by decide, by decide, by decide, by decide, ?_⟩
  intro s c hc
  have hmem := closure s c hc
  have hcases : c = "article" ∨ c = "lecture" ∨ c = "python" := by
    simpa [Archive.CATEGORY_KEYS] using hmem
  rcases hcases with h | h | h <;> rw [h] <;> decide

/-- Witness for C3: `"tool, workshop"` splits on the comma, remaps
`tool` and drops `workshop`, so `"python"` is a member; the closure and
idempotence conjuncts apply to it. -/
theorem category_enumeration_closure_witness :
    "python" ∈ Archive.CATEGORY_KEYS ∧
    Archive.normalizeCategories "python" = ["python"] :=
  ⟨category_enumeration_closure.1 "tool, workshop" "python" (by decide),
   category_enumeration_closure.2.2.2.2.2 "tool, workshop" "python" (by decide)⟩

/-- If `sub` does not occur in `part` (`includes` is false), splitting
`part` at `sub` returns the whole string. -/
theorem jsSplit_eq_self_of_not_includes {sep part : String} (hne : sep.data ≠ [])
    (h : jsIncludes part sep = false) : jsSplit sep part = [part] := by
  unfold jsIncludes at h
  unfold jsSplit
  rcases hsep : sep.data with _ | ⟨c, cs⟩
  · exact absurd hsep hne
  · rw [hsep] at h
    simp only at h
    have hlen : (splitSepFuel c cs part.data.length part.data).length = 1 := by
      simpa using h
    show List.map String.mk (splitSepFuel c cs part.data.length part.data) = [part]
    rw [splitSepFuel_length_one hlen]
    rfl

/-- C4: the file normalizer splits the raw string on `|`, trims parts,
parses `name::url` pairs, and assigns the default name `"File"` to any
part that is a bare URL with no `name::` component; the concrete example
from the spec yields exactly the two stated entries. -/
theorem file_pair_parsing :
    Archive.normalizeFiles "Slides::https://x/a.pdf|https://x/b.pdf" =
      [{ name := "Slides", url := "https://x/a.pdf" },
       { name := "File", url := "https://x/b.pdf" }] ∧
    (∀ (s part : String),
      part ∈ ((jsSplit "|" s).map jsTrim).filter (· ≠ "") →
      jsIncludes part "::" = false →
      jsStartsWith part "http" = true →
      { name := "File", url := part } ∈ Archive.normalizeFiles s) := by
  constructor
  · decide
  · intro s part hmem hninc hhttp
    have htrim := mem_trimFilter hmem
    have hsplit : jsSplit "::" part = [part] :=
      jsSplit_eq_self_of_not_includes (by decide) hninc
    unfold Archive.normalizeFiles
    rw [List.mem_filter]
    constructor
    · rw [List.mem_map]
      refine ⟨part, hmem, ?_⟩
      simp only [hsplit, List.getD_cons_zero]
      have h1 : ([part].getD 1 "") = "" := rfl
      have h0 : jsTrim "" = "" := rfl
      rw [h1, h0, htrim.2]
      simp [hhttp]
    · simpa using htrim.1

/-- Witness for C4's general conjunct: in `"Slides::https://x/a.pdf|https://x/b.pdf"`
the second part `https://x/b.pdf` is a bare URL, so the default-named
entry is a member of the result. -/
theorem file_pair_parsing_witness :
    ({ name := "File", url := "https://x/b.pdf" } : Archive.FileItem) ∈
      Archive.normalizeFiles "Slides::https://x/a.pdf|https://x/b.pdf" :=
  file_pair_parsing.2 "Slides::https://x/a.pdf|https://x/b.pdf" "https://x/b.pdf"
    (by decide) (by decide) (by decide)

/-- C5: every failing load attempt — absent feed URL (failing before any
network call), rejected fetch, non-success HTTP response, or throwing
parser — leaves the record set empty and retains a non-null error
message; no partial result survives a failed load. -/
theorem load_failure_clears_records (env : Projects.LoadEnv)
    (h : jsTrim (env.envUrl.getD "") = ""
      ∨ (∃ m, env.fetch = Projects.FetchOutcome.throws m)
      ∨ (∃ st tx, env.fetch = Projects.FetchOutcome.response false st tx)
      ∨ (∃ m, env.parse = Projects.ParseOutcome.throws m)) :
    (Projects.load env).projects = [] ∧ ∃ m, (Projects.load env).errMsg = some m := by
  unfold Projects.load
  by_cases hu : jsTrim (env.envUrl.getD "") = ""
  · rw [if_pos hu]
    exact ⟨rfl, _, rfl⟩
  · rw [if_neg hu]
    rcases hf : env.fetch with ⟨m⟩ | ⟨ok, st, tx⟩
    · exact ⟨rfl, _, rfl⟩
    · cases ok with
      | false => exact ⟨rfl, _, rfl⟩
      | true =>
        rcases hp : env.parse with m | rs
        · exact ⟨rfl, _, rfl⟩
        · exfalso
          rcases h with h | ⟨m, hm⟩ | ⟨st', tx', hm⟩ | ⟨m, hm⟩
          · exact hu h
          · rw [hf] at hm
            cases hm
          · rw [hf] at hm
            cases hm
          · rw [hp] at hm
            cases hm

/-- Witness for C5 at the configuration-error input: no feed URL is set,
the load fails before any network call, and the state is an empty record
set plus a message. -/
theorem load_failure_clears_records_witness :
    (Projects.load ⟨none, Projects.FetchOutcome.response true 200 "",
        Projects.ParseOutcome.rows []⟩).projects = [] ∧
    ∃ m, (Projects.load ⟨none, Projects.FetchOutcome.response true 200 "",
        Projects.ParseOutcome.rows []⟩).errMsg = some m :=
  load_failure_clears_records
    ⟨none, Projects.FetchOutcome.response true 200 "", Projects.ParseOutcome.rows []⟩
    (Or.inl (by decide))

theorem httpGuard_some {x : Option String} {u : String}
    (hu : (if isHttpUrl x then some (jsTrim (x.getD "")) else none) = some u) :
    (jsStartsWith u "http://" || jsStartsWith u "https://") = true := by
  by_cases hc : isHttpUrl x
  · rw [if_pos hc] at hu
    injection hu with hu2
    subst hu2
    exact hc
  · rw [if_neg hc] at hu
    exact Option.noConfusion hu

theorem httpGuard_none {x : Option String} (h : isHttpUrl x = false) :
    (if isHttpUrl x then some (jsTrim (x.getD "")) else none) = none := by
  simp [h]

/-- C7: every URL-valued field (`url`, `repo`, `website`, `photoUrl`,
image fields) survives into the normalized record only if its trimmed
value begins with `http://` or `https://` — for image fields also a
root-relative `/` path — and otherwise the field is absent.  Shown for
the projects, people and news record constructors. -/
theorem url_field_validation :
    (∀ r : Projects.ProjectRow,
      (∀ u, (Projects.toProject r).url = some u →
        (jsStartsWith u "http://" || jsStartsWith u "https://") = true) ∧
      (isHttpUrl r.url = false → (Projects.toProject r).url = none) ∧
      (∀ u, (Projects.toProject r).repo = some u →
        (jsStartsWith u "http://" || jsStartsWith u "https://") = true) ∧
      (isHttpUrl r.repo = false → (Projects.toProject r).repo = none) ∧
      (∀ u, (Projects.toProject r).imageUrl = some u →
        (jsStartsWith u "http://" || jsStartsWith u "https://" || jsStartsWith u "/") = true) ∧
      ((isHttpUrl r.imageurl || Projects.isLocalPublicPath r.imageurl) = false →
        (Projects.toProject r).imageUrl = none)) ∧
    (∀ r : People.PeopleRow,
      (∀ u, (People.toPerson r).photoUrl = some u →
        (jsStartsWith u "http://" || jsStartsWith u "https://") = true) ∧
      (isHttpUrl r.photoUrl = false → (People.toPerson r).photoUrl = none) ∧
      (∀ u, (People.toPerson r).website = some u →
        (jsStartsWith u "http://" || jsStartsWith u "https://") = true) ∧
      (isHttpUrl r.website = false → (People.toPerson r).website = none)) ∧
    (∀ r : News.NewsRow,
      (∀ u, (News.toNewsItem r).url = some u →
        (jsStartsWith u "http://" || jsStartsWith u "https://") = true) ∧
      (isHttpUrl r.url = false → (News.toNewsItem r).url = none) ∧
      (∀ u, (News.toNewsItem r).imageUrl = some u →
        (jsStartsWith u "http://" || jsStartsWith u "https://" || jsStartsWith u "/") = true) ∧
      ((isHttpUrl r.imageurl || jsStartsWith (jsTrim (r.imageurl.getD "")) "/") = false →
        (News.toNewsItem r).imageUrl = none)) := by
  refine ⟨?_, ?_, ?_⟩
  · intro r
    refine ⟨fun u hu => httpGuard_some hu, fun h => httpGuard_none h,
      fun u hu => httpGuard_some hu, fun h => httpGuard_none h, ?_, ?_⟩
    · intro u hu
      have heq : (Projects.toProject r).imageUrl =
          (if jsTrim (r.imageurl.getD "") ≠ "" ∧
              (isHttpUrl (some (jsTrim (r.imageurl.getD ""))) ||
                Projects.isLocalPublicPath (some (jsTrim (r.imageurl.getD "")))) = true then
            some (jsTrim (r.imageurl.getD "")) else none) := rfl
      rw [heq] at hu
      split at hu
      case isTrue hcond =>
        injection hu with hu2
        subst hu2
        have h2 := hcond.2
        unfold isHttpUrl Projects.isLocalPublicPath at h2
        simp only [Option.getD_some] at h2
        rw [jsTrim_idem] at h2
        simp only [Bool.or_eq_true] at h2 ⊢
        tauto
      case isFalse => exact Option.noConfusion hu
    · intro h
      have heq : (Projects.toProject r).imageUrl =
          (if jsTrim (r.imageurl.getD "") ≠ "" ∧
              (isHttpUrl (some (jsTrim (r.imageurl.getD ""))) ||
                Projects.isLocalPublicPath (some (jsTrim (r.imageurl.getD "")))) = true then
            some (jsTrim (r.imageurl.getD "")) else none) := rfl
      rw [heq]
      have hb : (isHttpUrl (some (jsTrim (r.imageurl.getD ""))) ||
          Projects.isLocalPublicPath (some (jsTrim (r.imageurl.getD "")))) = false := by
        unfold isHttpUrl Projects.isLocalPublicPath at h ⊢
        simp only [Option.getD_some]
        rw [jsTrim_idem]
        exact h
      rw [if_neg]
      intro hcond
      rw [hb] at hcond
      exact Bool.noConfusion hcond.2
  · intro r
    exact ⟨fun u hu => httpGuard_some hu, fun h => httpGuard_none h,
      fun u hu => httpGuard_some hu, fun h => httpGuard_none h⟩
  · intro r
    refine ⟨fun u hu => httpGuard_some hu, fun h => httpGuard_none h, ?_, ?_⟩
    · intro u hu
      have h2 := httpGuard_some hu
      simp only [Bool.or_eq_true] at h2 ⊢
      tauto
    · intro h
      have h1 : isHttpUrl r.imageurl = false := by
        simp only [Bool.or_eq_false_iff] at h
        exact h.1
      exact httpGuard_none h1

/-- Witness for C7: a retained project url starts with `https://`, and a
non-http url is dropped. -/
theorem url_field_validation_witness :
    (jsStartsWith "https://x" "http://" || jsStartsWith "https://x" "https://") = true ∧
    (Projects.toProject { url := some "ftp://x" }).url = none :=
  ⟨(url_field_validation.1 { url := some "https://x" }).1 "https://x" (by decide),
   (url_field_validation.1 { url := some "ftp://x" }).2.1 (by decide)⟩

/-- Counterexample to C8 as stated: on the projects page (`load` has no
cancellation flag) a first load that resolves after the second one
overwrites the second's result, so the final record set is NOT the
second load's. -/
theorem reload_cancellation_counterexample :
    (Archive.runRace Archive.projectsStep
        [Archive.RaceEvent.trigger2,
         Archive.RaceEvent.resolve2 [],
         Archive.RaceEvent.resolve1
           [{ id := "a", title := "T", description := "", categories := [],
              tags := [], fileItems := [], createdAt := none }]]).rows =
      [{ id := "a", title := "T", description := "", categories := [],
         tags := [], fileItems := [], createdAt := none }] ∧
    [({ id := "a", title := "T", description := "", categories := [],
        tags := [], fileItems := [], createdAt := none } : Archive.Resource)] ≠
      ([] : List Archive.Resource) := by
  decide

/-- C8 as amended: on the resources archive page, whose effect carries a
`cancelled` flag that its cleanup sets when a new load is triggered, the
second load's result is the final record set whichever order the two
responses resolve in; the pages whose `load` lacks the flag (projects,
people, publications, news) do not enjoy this guarantee, as the
counterexample shows. -/
theorem reload_cancellation_amended (d1 d2 : List Archive.Resource) :
    (Archive.runRace Archive.archiveStep
        [Archive.RaceEvent.trigger2, Archive.RaceEvent.resolve1 d1,
         Archive.RaceEvent.resolve2 d2]).rows = d2 ∧
    (Archive.runRace Archive.archiveStep
        [Archive.RaceEvent.trigger2, Archive.RaceEvent.resolve2 d2,
         Archive.RaceEvent.resolve1 d1]).rows = d2 :=
  ⟨rfl, rfl⟩

/-- C9: a record is in the derived filtered subset iff it is in the
loaded record set and passes both the category any-match test and the
case-insensitive substring test; tab `all` passes every record, and a
whitespace-only query passes every record for the text test. -/
theorem search_filter_composition :
    (∀ (rows : List Archive.Resource) (tab : Archive.TabKey) (query : String)
        (r : Archive.Resource),
      r ∈ Archive.filtered rows tab query ↔
        r ∈ rows ∧ Archive.matchesTab tab r = true ∧ Archive.matchesQuery query r = true) ∧
    (∀ r : Archive.Resource, Archive.matchesTab Archive.TabKey.all r = true) ∧
    (∀ (query : String) (r : Archive.Resource), jsTrim query = "" →
      Archive.matchesQuery query r = true) := by
  refine ⟨?_, ?_, ?_⟩
  · intro rows tab query r
    unfold Archive.filtered
    rw [List.mem_filter, List.mem_filter]
    tauto
  · intro r
    rfl
  · intro query r h
    unfold Archive.matchesQuery
    rw [h]
    rfl

/-- Witness for C9: a record with no categories is a member of the
filtered subset under tab `all` and the empty query, and a
whitespace-only query passes it. -/
theorem search_filter_composition_witness :
    ({ id := "a", title := "T", description := "", categories := [], tags := [],
       fileItems := [], createdAt := none } : Archive.Resource) ∈
      Archive.filtered
        [{ id := "a", title := "T", description := "", categories := [], tags := [],
           fileItems := [], createdAt := none }] Archive.TabKey.all "" ∧
    Archive.matchesQuery "  "
      { id := "a", title := "T", description := "", categories := [], tags := [],
        fileItems := [], createdAt := none } = true :=
  ⟨(search_filter_composition.1
      [{ id := "a", title := "T", description := "", categories := [], tags := [],
         fileItems := [], createdAt := none }] Archive.TabKey.all ""
      { id := "a", title := "T", description := "", categories := [], tags := [],
        fileItems := [], createdAt := none }).mpr
      ⟨by decide, by decide, by decide⟩,
   search_filter_composition.2.2 "  "
     { id := "a", title := "T", description := "", categories := [], tags := [],
       fileItems := [], createdAt := none } (by decide)⟩

/-- C10 (implicit): when a publication row has no valid http(s) url but a
non-empty trimmed doi, the normalized url is `https://doi.org/` followed
by the doi with any leading `http(s)://doi.org/` stripped; a valid
http(s) url takes precedence over the DOI-derived link. -/
theorem doi_fallback_url (r : Pubs.PublicationRow) :
    (isHttpUrl r.url = false → jsTrim (r.doi.getD "") ≠ "" →
      (Pubs.toPublication r).url =
        some ("https://doi.org/" ++ Pubs.stripDoiOrg (jsTrim (r.doi.getD "")))) ∧
    (isHttpUrl r.url = true →
      (Pubs.toPublication r).url = some (jsTrim (r.url.getD ""))) := by
  constructor
  · intro h1 h2
    have hd : optTrim r.doi = some (jsTrim (r.doi.getD "")) := by
      unfold optTrim
      rw [if_neg h2]
    simp only [Pubs.toPublication, h1, hd]
    simp [Pubs.jsOrStr]
  · intro h1
    have hne : jsTrim (r.url.getD "") ≠ "" := ne_empty_of_isHttpUrl h1
    simp only [Pubs.toPublication, h1]
    simp [Pubs.jsOrStr, hne]

/-- Witness for C10: a bare DOI produces the `doi.org` link, and a valid
http url wins over the DOI. -/
theorem doi_fallback_url_witness :
    (Pubs.toPublication { doi := some "10.1000/xyz" }).url =
      some "https://doi.org/10.1000/xyz" ∧
    (Pubs.toPublication { url := some "https://a.b/c", doi := some "10.1/z" }).url =
      some "https://a.b/c" := by
  constructor
  · have h := (doi_fallback_url { doi := some "10.1000/xyz" }).1 (by decide) (by decide)
    rw [h]
    decide
  · exact (doi_fallback_url { url := some "https://a.b/c", doi := some "10.1/z" }).2 (by decide)
